import Mathlib

/-!
Shallow embedding of the stabilization engine of `bgg_swing2` (src/core.rs),
together with theorems settling the frozen claims about it.

Modelling conventions:
* `f64` ratings are embedded as `Rat` (exact rational arithmetic);
  `u32` counters as `Nat` (no claim under scrutiny exercises wrap-around).
* Fallible remote calls (`bgg::get_users_from`, `bgg::get_user_average_rating`)
  are oracles in a worker environment `WEnv`, returning `Except String`.
* Store operations (`db::DbConn`) are modelled as total state updates on a
  user-trust table; store-level failures are out of scope of the settled
  claims (they would surface as `DieErr`, which the orchestrator model
  consumes abstractly from its message list).
* A worker's observable behaviour is a trace of events `Ev`: channel sends,
  the backoff sleep, and store writes (game updates / user inserts), in the
  exact order the Rust code performs them.
* The Rust per-worker loop is not structurally terminating, so the model
  takes a fuel parameter; exhausting fuel yields the `ROut.outOfFuel` marker.
* The orchestrator's channel-drain loop is modelled over the finite list of
  messages that the channel delivers; running off the end of that list means
  the Rust loop would block forever on `rx.recv()` (the orchestrator's own
  sender is never dropped, so the channel never closes), which the model
  renders as `none`.
-/

abbrev User := String

/-- Mirror of `lib::Game` (src/lib.rs). -/
structure Game where
  id : Nat
  name : String
  rating : Rat
  votes : Nat
  page : Nat
  bgg_num_votes : Nat
  bgg_geek_rating : Rat
  bgg_avg_rating : Rat
deriving DecidableEq, Repr

/-- Mirror of `core::Config` (src/core.rs). -/
structure Config where
  limit : Nat
  attempts : Nat
  delay : Nat
  threads : Nat
deriving DecidableEq, Repr

/-- Mirror of `core::LOWER_BOUND`. -/
def LOWER_BOUND : Rat := 2

/-- Mirror of `core::UPPER_BOUND`. -/
def UPPER_BOUND : Rat := 8

/-- Mirror of `core::trust`: `LOWER_BOUND < rating && rating < UPPER_BOUND`. -/
def trust (rating : Rat) : Bool :=
  decide (LOWER_BOUND < rating) && decide (rating < UPPER_BOUND)

/-- Mirror of `core::RegulationToken`. `delay_step` is kept in milliseconds as a `Nat`. -/
structure RegulationToken where
  limit : Nat
  delay_step : Nat
  i : Nat
deriving DecidableEq, Repr

/-- Mirror of `RegulationToken::new(limit, delay_step)`. -/
def RegulationToken.new (limit delay_step : Nat) : RegulationToken :=
  { limit := limit, delay_step := delay_step, i := 0 }

/-- Mirror of `RegulationToken::delay`: `delay_step * i`. -/
def RegulationToken.delay (t : RegulationToken) : Nat :=
  t.delay_step * t.i

/-- Mirror of `RegulationToken::is_stopped`: `i >= limit`. -/
def RegulationToken.is_stopped (t : RegulationToken) : Bool :=
  decide (t.limit ≤ t.i)

/-- Mirror of `RegulationToken::ease`: decrement `i` if not stopped and `i != 0`. -/
def RegulationToken.ease (t : RegulationToken) : RegulationToken :=
  if !t.is_stopped && !(t.i == 0) then { t with i := t.i - 1 } else t

/-- Mirror of `RegulationToken::harden`: increment `i`. -/
def RegulationToken.harden (t : RegulationToken) : RegulationToken :=
  { t with i := t.i + 1 }

/-- Mirror of `ease` iterated `k` times (a sequence of further `ease()` calls). -/
def easeIter : Nat → RegulationToken → RegulationToken
  | 0, t => t
  | k + 1, t => easeIter k t.ease

/-- Mirror of `core::Avg`. -/
structure Avg where
  n : Nat
  val : Rat
deriving DecidableEq, Repr

/-- Mirror of `Avg::new(n, val)`. -/
def Avg.new (n : Nat) (val : Rat) : Avg :=
  { n := n, val := val }

/-- Mirror of `Avg::add`: `n += 1; val = (nmbr + (n - 1) * val) / n`. -/
def Avg.add (a : Avg) (nmbr : Rat) : Avg :=
  let n := a.n + 1
  { n := n, val := (nmbr + ((n - 1 : Nat) : Rat) * a.val) / (n : Rat) }

/-- Mirror of `Avg::result`. -/
def Avg.result (a : Avg) : Rat := a.val

/-- Folding a whole batch of values into an accumulator, one `add` at a time. -/
def Avg.addList (a : Avg) (xs : List Rat) : Avg :=
  xs.foldl Avg.add a

/-- Mirror of `core::Message`. Error payloads are carried as strings. -/
inductive Message where
  | DieErr (e : String)
  | DieResult (g : Game)
  | DieInterrupt
  | NoteErr (e : String)
  | NoteUserProgress (u : User)
  | NoteGameProgress (g : Game)
deriving DecidableEq, Repr

/-- One observable step of a worker: a channel send, the backoff sleep
(with its duration in ms), a game-row store write (`DbConn::update_game`
with its stable flag), or a user-row store write (`DbConn::add_user`). -/
inductive Ev where
  | send (m : Message)
  | sleep (ms : Nat)
  | updateGame (g : Game) (stable : Bool)
  | addUser (u : User) (trusted : Bool)
deriving DecidableEq, Repr

/-- The persisted user-trust table (`users` table in src/db.rs), as an
association list from user name to trust flag. -/
abbrev UserDb := List (User × Bool)

/-- Mirror of `DbConn::check_user`: look a user up in the trust table. -/
def lookupUser : UserDb → User → Option Bool
  | [], _ => none
  | (v, b) :: rest, u => if v = u then some b else lookupUser rest u

/-- Mirror of `DbConn::add_user`: `insert or ignore` of a `(name, trusted)` row. -/
def addUserDb (db : UserDb) (u : User) (t : Bool) : UserDb :=
  match lookupUser db u with
  | some _ => db
  | none => db ++ [(u, t)]

/-- The remote source and connection setup seen by one worker:
`connErr` is the outcome of `DbConn::new` (`none` = success),
`fetchPage p` the outcome of `bgg::get_users_from(client, game.id, p)`
for this worker's game, and `fetchUser u` the outcome of
`bgg::get_user_average_rating(client, u)`. -/
structure WEnv where
  connErr : Option String
  fetchPage : Nat → Except String (List (User × Rat))
  fetchUser : User → Except String Rat

/-- Mirror of `core::check_users`: resolve the trust flag of every rater on a page,
left to right, accumulating an in-memory map (`user_map`, prepend =
`HashMap::insert` overwrite semantics). Returns the updated token, the
updated user table, the events emitted, and `some map` on success or
`none` when a rater's remote lookup failed transiently. -/
def check_users (env : WEnv) (tkn : RegulationToken) (db : UserDb) :
    List (User × Rat) → UserDb → RegulationToken × UserDb × List Ev × Option UserDb
  | [], map => (tkn, db, [], some map)
  | (u, _) :: rest, map =>
    match lookupUser db u with
    | some v => check_users env tkn db rest ((u, v) :: map)
    | none =>
      match env.fetchUser u with
      | Except.error e =>
        (tkn.harden, db, [Ev.send (Message.NoteErr e)], none)
      | Except.ok rating =>
        let trusted := trust rating
        let r := check_users env tkn.ease (addUserDb db u trusted) rest ((u, trusted) :: map)
        (r.1, r.2.1,
         Ev.addUser u trusted :: Ev.send (Message.NoteUserProgress u) :: r.2.2.1,
         r.2.2.2)

/-- Mirror of `core::check_game`: process one page of the worker's game. Sends the
game-progress event first, then fetches page `game.page`; on fetch error
hardens the token and reports a recoverable failure (`none`); on an empty
page advances the page and reports `some true` (last page reached); else
resolves rater trust, folds trusted ratings into the running average,
advances the page and reports `some false`. -/
def check_game (env : WEnv) (tkn : RegulationToken) (g : Game) (db : UserDb) :
    RegulationToken × Game × UserDb × List Ev × Option Bool :=
  let evs0 := [Ev.send (Message.NoteGameProgress g)]
  match env.fetchPage g.page with
  | Except.error e =>
    (tkn.harden, g, db, evs0 ++ [Ev.send (Message.NoteErr e)], none)
  | Except.ok users =>
    let tkn1 := tkn.ease
    if users.isEmpty then
      (tkn1, { g with page := g.page + 1 }, db, evs0, some true)
    else
      let avg := Avg.new g.votes g.rating
      match check_users env tkn1 db users [] with
      | (tkn2, db2, evs, none) => (tkn2, g, db2, evs0 ++ evs, none)
      | (tkn2, db2, evs, some map) =>
        let avg1 := users.foldl
          (fun a ur => if lookupUser map ur.1 = some true then a.add ur.2 else a) avg
        let g1 := { g with rating := avg1.result, votes := avg1.n, page := g.page + 1 }
        (tkn2, g1, db2, evs0 ++ evs, some false)

/-- The error message of a stopped regulation token (src/core.rs line 162). -/
def tokenStoppedMsg : String := "Regulation token stopped the process."

/-- How a worker run ends: a fatal terminal event, an interrupt terminal
event, a stable terminal event with the final game snapshot, or fuel
exhaustion of the model (the Rust loop would simply keep iterating). -/
inductive ROut where
  | fatal (e : String)
  | interrupted
  | stable (g : Game)
  | outOfFuel (tkn : RegulationToken) (g : Game) (db : UserDb)
deriving DecidableEq, Repr

/-- The loop of `core::runner`: per iteration, first check the token's
stop flag (fatal), then the shared cancellation flag (interrupted), then
sleep `tkn.delay()`, run `check_game` and dispatch on its outcome exactly
as the Rust `match` does. `running` is the shared `AtomicBool` (constant
over the modelled run). -/
def runnerLoop (env : WEnv) (running : Bool) :
    Nat → RegulationToken → Game → UserDb → List Ev × ROut
  | 0, tkn, g, db => ([], ROut.outOfFuel tkn g db)
  | fuel + 1, tkn, g, db =>
    if tkn.is_stopped then
      ([Ev.send (Message.DieErr tokenStoppedMsg)], ROut.fatal tokenStoppedMsg)
    else if !running then
      ([Ev.send Message.DieInterrupt], ROut.interrupted)
    else
      match check_game env tkn g db with
      | (tkn1, g1, db1, evs, none) =>
        (Ev.sleep tkn.delay :: (evs ++ (runnerLoop env running fuel tkn1 g1 db1).1),
         (runnerLoop env running fuel tkn1 g1 db1).2)
      | (tkn1, g1, db1, evs, some false) =>
        (Ev.sleep tkn.delay ::
          (evs ++ Ev.updateGame g1 false :: (runnerLoop env running fuel tkn1 g1 db1).1),
         (runnerLoop env running fuel tkn1 g1 db1).2)
      | (_, g1, _, evs, some true) =>
        (Ev.sleep tkn.delay :: (evs ++ [Ev.updateGame g1 true, Ev.send (Message.DieResult g1)]),
         ROut.stable g1)

/-- Mirror of `core::runner`: create the store connection (fatal on failure), build
a fresh regulation token from the config, and enter the loop. -/
def runner (env : WEnv) (running : Bool) (fuel : Nat) (config : Config)
    (g : Game) (db : UserDb) : List Ev × ROut :=
  match env.connErr with
  | some e => ([Ev.send (Message.DieErr e)], ROut.fatal e)
  | none => runnerLoop env running fuel (RegulationToken.new config.attempts config.delay) g db

/-- One step of the orchestrator's message dispatch in `core::stabilize`:
given `(finished, running, result)`, a `DieErr` stores the cancellation
flag false, overwrites `result` with this error and counts the worker as
finished; `DieResult` and `DieInterrupt` only count the worker as
finished; every other message is forwarded to the progress callback and
does not count. -/
def drainStep (finished : Nat) (running : Bool) (result : Option String) :
    Message → Nat × Bool × Option String
  | Message.DieErr e => (finished + 1, false, some e)
  | Message.DieResult _ => (finished + 1, running, result)
  | Message.DieInterrupt => (finished + 1, running, result)
  | _ => (finished, running, result)

/-- The `for received in rx` drain loop of `core::stabilize` over the list
of messages the channel delivers: after each message, break when
`finished == job_size`. Running off the end of the list is `none`: the
real loop would block forever on `rx.recv()`, since the orchestrator's
own sender keeps the channel open. -/
def drainLoop (jobSize : Nat) :
    List Message → Nat → Bool → Option String → Option (Option String × Bool)
  | [], _, _, _ => none
  | m :: rest, finished, running, result =>
    let s := drainStep finished running result m
    if s.1 = jobSize then some (s.2.2, s.2.1)
    else drainLoop jobSize rest s.1 s.2.1 s.2.2

/-- Mirror of `core::stabilize`, abstracted over the message sequence the channel
delivers for a run with `jobSize` submitted workers. `some none` models
`Ok(())`, `some (some e)` models `Err(e)`, `none` models blocking forever
in the drain loop. -/
def stabilize (jobSize : Nat) (msgs : List Message) : Option (Option String) :=
  (drainLoop jobSize msgs 0 true none).map (fun r => r.1)

/-- The error remembered after processing a message prefix: the payload of
the last `DieErr` seen, starting from `res`. -/
def lastErr (res : Option String) : List Message → Option String
  | [] => res
  | m :: rest =>
    lastErr (match m with | Message.DieErr e => some e | _ => res) rest

/-- Whether a message is a terminal (worker-death) event: exactly the
messages on which the drain loop of `core::stabilize` increments its
completed-worker counter `finished`. -/
def isTerminal : Message → Bool
  | Message.DieErr _ => true
  | Message.DieResult _ => true
  | Message.DieInterrupt => true
  | _ => false

/-- The trust flag a rater resolves to during a run that starts from user
table `db0` when every remote rater lookup succeeds with `ur u`: the
cached flag if present, otherwise the classification of the fetched
average. -/
def resolved (db0 : UserDb) (ur : User → Rat) (u : User) : Bool :=
  match lookupUser db0 u with
  | some v => v
  | none => trust (ur u)

/-- Invariant tying the evolving user table back to the initial table:
rows of `db0` survive, and every row agrees with `resolved`. -/
def DbInv (db0 : UserDb) (ur : User → Rat) (db : UserDb) : Prop :=
  (∀ u v, lookupUser db0 u = some v → lookupUser db u = some v) ∧
  (∀ u v, lookupUser db u = some v → v = resolved db0 ur u)

/-- Number of rater occurrences on pages `a, a+1, ..., a+k-1` that resolve
to trusted. -/
def trustedCount (db0 : UserDb) (ur : User → Rat)
    (pages : Nat → List (User × Rat)) : Nat → Nat → Nat
  | _, 0 => 0
  | a, k + 1 =>
    (pages a).countP (fun p => resolved db0 ur p.1) +
      trustedCount db0 ur pages (a + 1) k

lemma ease_stopped (t : RegulationToken) (h : t.is_stopped = true) : t.ease = t := by
  simp [RegulationToken.ease, h]

lemma ease_zero (t : RegulationToken) (h : t.i = 0) : t.ease = t := by
  simp [RegulationToken.ease, h]

lemma easeIter_stopped : ∀ (k : Nat) (t : RegulationToken),
    t.is_stopped = true → easeIter k t = t
  | 0, _, _ => rfl
  | k + 1, t, h => by
    rw [easeIter, ease_stopped t h]
    exact easeIter_stopped k t h

lemma ease_i_le (t : RegulationToken) : (t.ease).i ≤ t.i := by
  unfold RegulationToken.ease
  split
  · exact Nat.sub_le _ _
  · exact Nat.le_refl _

/-- Claim C8: once `i >= limit` holds, `is_stopped` remains true under any
number of further `ease` calls (`ease` on a stopped token is a no-op, so a
stopped token is never revived), and `ease` never drives `i` below 0: it
is a no-op at `i = 0` and never increases `i`. -/
theorem token_stopped_never_revived (t : RegulationToken) :
    (t.is_stopped = true → t.ease = t ∧ ∀ k, (easeIter k t).is_stopped = true) ∧
    (t.i = 0 → t.ease = t) ∧ (t.ease).i ≤ t.i :=
  ⟨fun h => ⟨ease_stopped t h, fun k => by rw [easeIter_stopped k t h]; exact h⟩,
   fun h => ease_zero t h, ease_i_le t⟩

/-- Witness for `token_stopped_never_revived` at a concrete stopped token. -/
theorem token_stopped_never_revived_witness :
    RegulationToken.is_stopped ⟨2, 5, 3⟩ = true ∧
    RegulationToken.ease ⟨2, 5, 3⟩ = ⟨2, 5, 3⟩ ∧
    (easeIter 4 ⟨2, 5, 3⟩).is_stopped = true :=
  ⟨by decide, ((token_stopped_never_revived ⟨2, 5, 3⟩).1 (by decide)).1,
   ((token_stopped_never_revived ⟨2, 5, 3⟩).1 (by decide)).2 4⟩

/-- Claim C7: a rater's fetched average `r` is classified trusted iff
`2 < r < 8` strictly; averages exactly 2 or exactly 8 are untrusted. -/
theorem trust_open_interval :
    (∀ r : Rat, trust r = true ↔ (2 < r ∧ r < 8)) ∧
    trust 2 = false ∧ trust 8 = false := by
  refine ⟨fun r => ?_, by decide, by decide⟩
  simp [trust, LOWER_BOUND, UPPER_BOUND]

lemma avg_add_eq (a : Avg) (x : Rat) :
    a.add x = ⟨a.n + 1, (x + (a.n : Rat) * a.val) / ((a.n : Rat) + 1)⟩ := by
  simp [Avg.add]

lemma avg_addList_val (xs : List Rat) : ∀ (c : Nat) (m : Rat), 0 < c →
    Avg.addList ⟨c, m⟩ xs =
      ⟨c + xs.length, ((c : Rat) * m + xs.sum) / ((c : Rat) + xs.length)⟩ := by
  induction xs with
  | nil =>
    intro c m hc
    have hc' : (c : Rat) ≠ 0 := by
      exact_mod_cast Nat.pos_iff_ne_zero.mp hc
    simp [Avg.addList, mul_div_cancel_left₀ _ hc']
  | cons x rest ih =>
    intro c m hc
    have hc1 : ((c : Rat) + 1) ≠ 0 := by positivity
    have hd : ((c : Rat) + 1 + (rest.length : Rat)) ≠ 0 := by positivity
    have hstep : Avg.addList ⟨c, m⟩ (x :: rest) =
        Avg.addList ⟨c + 1, (x + (c : Rat) * m) / ((c : Rat) + 1)⟩ rest := by
      simp [Avg.addList, avg_add_eq]
    rw [hstep, ih (c + 1) _ (Nat.succ_pos c)]
    simp only [List.length_cons, List.sum_cons]
    refine congrArg₂ Avg.mk (by omega) ?_
    push_cast
    field_simp
    ring

/-- Claim C9: `add`-folding a value sequence into a running average seeded
with `(existingCount, existingMean)` yields exactly the batch
arithmetic-mean over the seed and the values, and the final count is the
seed count plus the number of `add` calls. -/
theorem avg_fold_eq_batch (c : Nat) (m : Rat) (xs : List Rat)
    (h : 0 < c + xs.length) :
    (Avg.addList (Avg.new c m) xs).val =
      ((c : Rat) * m + xs.sum) / ((c : Rat) + xs.length) ∧
    (Avg.addList (Avg.new c m) xs).n = c + xs.length := by
  rcases Nat.eq_zero_or_pos c with hc | hc
  · subst hc
    cases xs with
    | nil => simp at h
    | cons x rest =>
      have hstep : Avg.addList (Avg.new 0 m) (x :: rest) = Avg.addList ⟨1, x⟩ rest := by
        simp [Avg.addList, Avg.new, avg_add_eq]
      rw [hstep, avg_addList_val rest 1 x Nat.one_pos]
      have hd : ((rest.length : Rat) + 1) ≠ 0 := by positivity
      constructor
      · simp only [List.sum_cons, List.length_cons]
        push_cast
        field_simp
        exact Or.inl (by ring)
      · simp [List.length_cons]
        omega
  · have : Avg.new c m = (⟨c, m⟩ : Avg) := rfl
    rw [this, avg_addList_val xs c m hc]
    exact ⟨rfl, rfl⟩

/-- Witness for `avg_fold_eq_batch` at seed `(2, 4)` and values `[3, 5]`. -/
theorem avg_fold_eq_batch_witness :
    (Avg.addList (Avg.new 2 4) [3, 5]).val =
      ((2 : Rat) * 4 + ([(3 : Rat), 5]).sum) / ((2 : Rat) + ([(3 : Rat), 5]).length) ∧
    (Avg.addList (Avg.new 2 4) [3, 5]).n = 2 + ([(3 : Rat), 5]).length :=
  avg_fold_eq_batch 2 4 [3, 5] (by decide)

lemma drainStep_fst (f : Nat) (run : Bool) (res : Option String) (m : Message) :
    (drainStep f run res m).1 = f + (if isTerminal m then 1 else 0) := by
  cases m <;> rfl

lemma drainStep_res (f : Nat) (run : Bool) (res : Option String) (m : Message) :
    (drainStep f run res m).2.2 =
      (match m with | Message.DieErr e => some e | _ => res) := by
  cases m <;> rfl

lemma drainLoop_strong : ∀ (msgs : List Message) (jobSize f : Nat) (run : Bool)
    (res : Option String) (r : Option String) (b : Bool),
    f < jobSize →
    drainLoop jobSize msgs f run res = some (r, b) →
    ∃ pre post, msgs = pre ++ post ∧
      r = lastErr res pre ∧
      f + pre.countP isTerminal = jobSize ∧
      ∃ pre0 m, pre = pre0 ++ [m] ∧ isTerminal m = true := by
  intro msgs
  induction msgs with
  | nil =>
    intro jobSize f run res r b hf h
    simp [drainLoop] at h
  | cons m rest ih =>
    intro jobSize f run res r b hf h
    simp only [drainLoop] at h
    by_cases hc : (drainStep f run res m).1 = jobSize
    · rw [if_pos hc] at h
      have hp := Option.some.inj h
      have hrr : (drainStep f run res m).2.2 = r := congrArg Prod.fst hp
      rw [drainStep_fst] at hc
      cases ht : isTerminal m with
      | false =>
        rw [ht] at hc
        simp at hc
        exact absurd hc (by omega)
      | true =>
        rw [ht] at hc
        simp at hc
        refine ⟨[m], rest, rfl, ?_, ?_, [], m, rfl, ht⟩
        · rw [← hrr, drainStep_res]
          rfl
        · simp [List.countP_cons, ht]
          omega
    · rw [if_neg hc] at h
      have hf1 : (drainStep f run res m).1 < jobSize := by
        rw [drainStep_fst] at hc ⊢
        have hb : (if isTerminal m = true then 1 else 0) ≤ 1 := by
          split
          · exact Nat.le_refl 1
          · exact Nat.zero_le 1
        omega
      obtain ⟨pre, post, hsplit, hr, hcount, pre0, m0, hpre0, hm0⟩ :=
        ih _ _ _ _ _ _ hf1 h
      refine ⟨m :: pre, post, by rw [hsplit]; rfl, ?_, ?_, m :: pre0, m0,
        by rw [hpre0]; rfl, hm0⟩
      · rw [hr, drainStep_res]
        rfl
      · rw [drainStep_fst] at hcount
        rw [List.countP_cons]
        omega

lemma lastErr_none : ∀ (pre : List Message) (res : Option String),
    lastErr res pre = none → res = none ∧ ∀ e, Message.DieErr e ∉ pre := by
  intro pre
  induction pre with
  | nil =>
    intro res h
    exact ⟨h, by simp⟩
  | cons m rest ih =>
    intro res h
    cases m with
    | DieErr e =>
      simp only [lastErr] at h
      exact absurd (ih _ h).1 (by simp)
    | DieResult g =>
      simp only [lastErr] at h
      refine ⟨(ih _ h).1, fun e hmem => ?_⟩
      rcases List.mem_cons.mp hmem with hh | hh
      · exact Message.noConfusion hh
      · exact (ih _ h).2 e hh
    | DieInterrupt =>
      simp only [lastErr] at h
      refine ⟨(ih _ h).1, fun e hmem => ?_⟩
      rcases List.mem_cons.mp hmem with hh | hh
      · exact Message.noConfusion hh
      · exact (ih _ h).2 e hh
    | NoteErr e0 =>
      simp only [lastErr] at h
      refine ⟨(ih _ h).1, fun e hmem => ?_⟩
      rcases List.mem_cons.mp hmem with hh | hh
      · exact Message.noConfusion hh
      · exact (ih _ h).2 e hh
    | NoteUserProgress u =>
      simp only [lastErr] at h
      refine ⟨(ih _ h).1, fun e hmem => ?_⟩
      rcases List.mem_cons.mp hmem with hh | hh
      · exact Message.noConfusion hh
      · exact (ih _ h).2 e hh
    | NoteGameProgress g =>
      simp only [lastErr] at h
      refine ⟨(ih _ h).1, fun e hmem => ?_⟩
      rcases List.mem_cons.mp hmem with hh | hh
      · exact Message.noConfusion hh
      · exact (ih _ h).2 e hh

lemma lastErr_no_err : ∀ (pre : List Message) (res : Option String),
    (∀ e, Message.DieErr e ∉ pre) → lastErr res pre = res := by
  intro pre
  induction pre with
  | nil =>
    intro res hno
    rfl
  | cons m rest ih =>
    intro res hno
    have hrest : ∀ e, Message.DieErr e ∉ rest :=
      fun e hmem => hno e (List.mem_cons_of_mem _ hmem)
    cases m with
    | DieErr e => exact absurd (List.mem_cons_self _ _) (hno e)
    | DieResult g => exact ih res hrest
    | DieInterrupt => exact ih res hrest
    | NoteErr e0 => exact ih res hrest
    | NoteUserProgress u => exact ih res hrest
    | NoteGameProgress g => exact ih res hrest

lemma no_terminal_ext (pre a pre20 : List Message) (m2 : Message)
    (hsplit : pre ++ a = pre20 ++ [m2]) (hterm : isTerminal m2 = true)
    (hcount : a.countP isTerminal = 0) : a = [] := by
  rcases List.eq_nil_or_concat a with rfl | ⟨a0, alast, rfl⟩
  · rfl
  · rw [List.concat_eq_append] at hsplit hcount
    rw [← List.append_assoc] at hsplit
    obtain ⟨h1, h2⟩ := List.append_inj' hsplit rfl
    have halast : alast = m2 := by
      injection h2
    rw [List.countP_append, List.countP_cons, halast, hterm] at hcount
    simp at hcount

lemma processed_prefix_unique (jobSize : Nat) (pre post pre2 post2 : List Message)
    (hsplit : pre ++ post = pre2 ++ post2)
    (hcount : pre.countP isTerminal = jobSize)
    (hcount2 : pre2.countP isTerminal = jobSize)
    (hend : ∃ pre0 m, pre = pre0 ++ [m] ∧ isTerminal m = true)
    (hend2 : ∃ pre20 m2, pre2 = pre20 ++ [m2] ∧ isTerminal m2 = true) :
    pre2 = pre := by
  rcases List.append_eq_append_iff.mp hsplit with ⟨a, ha, _⟩ | ⟨c, hc, _⟩
  · obtain ⟨pre20, m2, hpre20, hm2⟩ := hend2
    have hza : a.countP isTerminal = 0 := by
      rw [ha, List.countP_append] at hcount2
      omega
    have hax : a = [] :=
      no_terminal_ext pre a pre20 m2 (by rw [← ha, hpre20]) hm2 hza
    rw [ha, hax, List.append_nil]
  · obtain ⟨pre0, m0, hpre0, hm0⟩ := hend
    have hzc : c.countP isTerminal = 0 := by
      rw [hc, List.countP_append] at hcount
      omega
    have hcx : c = [] :=
      no_terminal_ext pre2 c pre0 m0 (by rw [← hc, hpre0]) hm0 hzc
    rw [hc, hcx, List.append_nil]

/-- Claim C1 (amended): the drain loop of `stabilize` processes exactly
the prefix of the delivered messages that ends at the `jobSize`-th
terminal event (this prefix is uniquely determined: it contains exactly
`jobSize` terminal events and its last element is one), and the run's
result is the payload of the LAST fatal (`DieErr`) event in that prefix
— each newly received fatal error overwrites the remembered one
(last-error-wins) — with `Ok(())` returned if and only if no fatal event
occurs in that prefix. -/
theorem stabilize_last_error_wins (jobSize : Nat) (msgs : List Message)
    (r : Option String) (hjob : 0 < jobSize)
    (h : stabilize jobSize msgs = some r) :
    ∃ pre post, msgs = pre ++ post ∧
      pre.countP isTerminal = jobSize ∧
      (∃ pre0 m, pre = pre0 ++ [m] ∧ isTerminal m = true) ∧
      (∀ pre2 post2, msgs = pre2 ++ post2 →
        pre2.countP isTerminal = jobSize →
        (∃ pre20 m2, pre2 = pre20 ++ [m2] ∧ isTerminal m2 = true) →
        pre2 = pre) ∧
      r = lastErr none pre ∧
      (r = none ↔ ∀ e, Message.DieErr e ∉ pre) := by
  unfold stabilize at h
  obtain ⟨⟨r1, b⟩, hdr, hmap⟩ := Option.map_eq_some'.mp h
  simp only at hmap
  subst hmap
  obtain ⟨pre, post, hsplit, hr, hcount, hend⟩ :=
    drainLoop_strong msgs jobSize 0 true none r1 b hjob hdr
  have hcount' : pre.countP isTerminal = jobSize := by omega
  refine ⟨pre, post, hsplit, hcount', hend, ?_, hr, ?_, ?_⟩
  · intro pre2 post2 hsplit2 hcount2 hend2
    exact processed_prefix_unique jobSize pre post pre2 post2
      (by rw [← hsplit, ← hsplit2]) hcount' hcount2 hend hend2
  · intro hnone e
    exact (lastErr_none pre none (by rw [← hr]; exact hnone)).2 e
  · intro hno
    rw [hr]
    exact lastErr_no_err pre none hno

/-- Witness for `stabilize_last_error_wins` on a one-worker run ending in
a fatal event. -/
theorem stabilize_last_error_wins_witness :
    ∃ pre post, [Message.DieErr "x"] = pre ++ post ∧
      pre.countP isTerminal = 1 ∧
      (∃ pre0 m, pre = pre0 ++ [m] ∧ isTerminal m = true) ∧
      (∀ pre2 post2, [Message.DieErr "x"] = pre2 ++ post2 →
        pre2.countP isTerminal = 1 →
        (∃ pre20 m2, pre2 = pre20 ++ [m2] ∧ isTerminal m2 = true) →
        pre2 = pre) ∧
      (some "x" : Option String) = lastErr none pre ∧
      ((some "x" : Option String) = none ↔ ∀ e, Message.DieErr e ∉ pre) :=
  stabilize_last_error_wins 1 [Message.DieErr "x"] (some "x") (by decide) rfl

/-- Claim C1 counterexample: a run of two workers that both die fatally
returns the second error, not the first — first-error-wins is false. -/
theorem stabilize_not_first_error_wins :
    stabilize 2 [Message.DieErr "boom1", Message.DieErr "boom2"] =
      some (some "boom2") ∧
    some (some "boom2") ≠ (some (some "boom1") : Option (Option String)) := by
  exact ⟨rfl, by decide⟩

/-- Claim C2 (code bug): with zero unstable games no worker is submitted,
no message ever arrives on the channel, and the drain loop of `stabilize`
blocks forever (`none`) instead of returning `Ok(())`: the
`finished == job_size` break is only checked after receiving a message,
and the orchestrator's own channel sender is never dropped. -/
theorem stabilize_zero_jobs_blocks : stabilize 0 [] = none := rfl

lemma drainLoop_replicate : ∀ (k jobSize f : Nat) (run : Bool)
    (res : Option String) (s : String), f + k = jobSize → 0 < k →
    drainLoop jobSize (List.replicate k (Message.DieErr s)) f run res =
      some (some s, false) := by
  intro k
  induction k with
  | zero =>
    intro jobSize f run res s hsum hpos
    exact absurd hpos (by omega)
  | succ k ih =>
    intro jobSize f run res s hsum hpos
    rw [List.replicate_succ]
    simp only [drainLoop, drainStep]
    rcases Nat.eq_zero_or_pos k with hk | hk
    · subst hk
      rw [if_pos (by omega)]
    · rw [if_neg (by omega)]
      exact ih jobSize (f + 1) false (some s) s (by omega) hk

/-- The environment of a worker whose store connection opens fine, whose
game has no rater pages at all, and whose rater lookups all return 5. -/
def envEmpty : WEnv :=
  { connErr := none,
    fetchPage := fun _ => Except.ok [],
    fetchUser := fun _ => Except.ok 5 }

/-- A fresh unstable game as loaded by `db::get_unstable_games`. -/
def g0 : Game :=
  { id := 42, name := "g", rating := 0, votes := 0, page := 1,
    bgg_num_votes := 0, bgg_geek_rating := 0, bgg_avg_rating := 0 }

/-- Claim C10: with `Config.attempts = 0` a fresh regulation token is
already stopped, so a worker emits the fatal token-stopped terminal event
as its only observable step — before any sleep, page fetch, or store
write — and a run whose workers all die this way returns that error. -/
theorem attempts_zero_first_iteration_fatal (env : WEnv) (cfg : Config)
    (g : Game) (db : UserDb) (fuel jobSize : Nat)
    (hconn : env.connErr = none) (hatt : cfg.attempts = 0)
    (hfuel : 0 < fuel) (hjob : 0 < jobSize) :
    runner env true fuel cfg g db =
      ([Ev.send (Message.DieErr tokenStoppedMsg)], ROut.fatal tokenStoppedMsg) ∧
    stabilize jobSize (List.replicate jobSize (Message.DieErr tokenStoppedMsg)) =
      some (some tokenStoppedMsg) := by
  constructor
  · unfold runner
    rw [hconn]
    obtain ⟨f, rfl⟩ : ∃ f, fuel = f + 1 := ⟨fuel - 1, by omega⟩
    simp [runnerLoop, RegulationToken.new, RegulationToken.is_stopped, hatt]
  · unfold stabilize
    rw [drainLoop_replicate jobSize jobSize 0 true none tokenStoppedMsg
      (by omega) hjob]
    rfl

/-- Witness for `attempts_zero_first_iteration_fatal` with a 2-worker run
and the default config with `attempts` set to 0. -/
theorem attempts_zero_first_iteration_fatal_witness :
    runner envEmpty true 1 ⟨1000, 0, 500, 4⟩ g0 [] =
      ([Ev.send (Message.DieErr tokenStoppedMsg)], ROut.fatal tokenStoppedMsg) ∧
    stabilize 2 (List.replicate 2 (Message.DieErr tokenStoppedMsg)) =
      some (some tokenStoppedMsg) :=
  attempts_zero_first_iteration_fatal envEmpty ⟨1000, 0, 500, 4⟩ g0 [] 1 2
    rfl rfl (by decide) (by decide)

/-- Claim C4 (amended): in each worker loop iteration the token's stopped
state is checked FIRST and the cancellation flag second: a stopped token
yields the fatal token-stopped terminal event as the iteration's only
observable step even when cancellation is requested, and an unstopped
token with cancellation requested yields the interrupted terminal event
with no further store writes. -/
theorem runner_token_before_cancel (env : WEnv) (running : Bool) (fuel : Nat)
    (tkn : RegulationToken) (g : Game) (db : UserDb) :
    (tkn.is_stopped = true →
      runnerLoop env running (fuel + 1) tkn g db =
        ([Ev.send (Message.DieErr tokenStoppedMsg)], ROut.fatal tokenStoppedMsg)) ∧
    (tkn.is_stopped = false → running = false →
      runnerLoop env running (fuel + 1) tkn g db =
        ([Ev.send Message.DieInterrupt], ROut.interrupted)) := by
  constructor
  · intro h
    simp [runnerLoop, h]
  · intro h hr
    subst hr
    simp [runnerLoop, h]

/-- Witness for `runner_token_before_cancel`: one stopped-token iteration
and one cancelled unstopped-token iteration. -/
theorem runner_token_before_cancel_witness :
    runnerLoop envEmpty false 1 ⟨0, 500, 0⟩ g0 [] =
      ([Ev.send (Message.DieErr tokenStoppedMsg)], ROut.fatal tokenStoppedMsg) ∧
    runnerLoop envEmpty false 1 ⟨3, 500, 0⟩ g0 [] =
      ([Ev.send Message.DieInterrupt], ROut.interrupted) :=
  ⟨(runner_token_before_cancel envEmpty false 0 ⟨0, 500, 0⟩ g0 []).1 (by decide),
   (runner_token_before_cancel envEmpty false 0 ⟨3, 500, 0⟩ g0 []).2 (by decide) rfl⟩

/-- Claim C4 counterexample: with the cancellation flag set AND the token
stopped, the worker emits the fatal token-stopped event, not the
interrupted event the claim requires. -/
theorem runner_cancel_not_checked_first :
    runnerLoop envEmpty false 1 ⟨0, 250, 0⟩ g0 [] =
      ([Ev.send (Message.DieErr tokenStoppedMsg)], ROut.fatal tokenStoppedMsg) ∧
    runnerLoop envEmpty false 1 ⟨0, 250, 0⟩ g0 [] ≠
      ([Ev.send Message.DieInterrupt], ROut.interrupted) := by
  exact ⟨rfl, by decide⟩

lemma check_users_events : ∀ (users : List (User × Rat)) (env : WEnv)
    (tkn : RegulationToken) (db map : UserDb) (e : Ev),
    e ∈ (check_users env tkn db users map).2.2.1 →
    (∃ u t, e = Ev.addUser u t) ∨
    (∃ u, e = Ev.send (Message.NoteUserProgress u)) ∨
    (∃ s, e = Ev.send (Message.NoteErr s)) := by
  intro users
  induction users with
  | nil =>
    intro env tkn db map e he
    simp [check_users] at he
  | cons p rest ih =>
    intro env tkn db map e he
    obtain ⟨u, r⟩ := p
    rw [check_users] at he
    cases hlu : lookupUser db u with
    | some v =>
      rw [hlu] at he
      exact ih env tkn db ((u, v) :: map) e he
    | none =>
      rw [hlu] at he
      cases hfu : env.fetchUser u with
      | error s =>
        rw [hfu] at he
        simp only [List.mem_singleton] at he
        exact Or.inr (Or.inr ⟨s, he⟩)
      | ok rating =>
        rw [hfu] at he
        simp only [List.mem_cons] at he
        rcases he with he | he | he
        · exact Or.inl ⟨u, trust rating, he⟩
        · exact Or.inr (Or.inl ⟨u, he⟩)
        · exact ih env tkn.ease (addUserDb db u (trust rating)) ((u, trust rating) :: map) e he

lemma check_users_no_update (env : WEnv) (tkn : RegulationToken)
    (db map : UserDb) (users : List (User × Rat)) (gg : Game) (s : Bool) :
    Ev.updateGame gg s ∉ (check_users env tkn db users map).2.2.1 := by
  intro hmem
  rcases check_users_events users env tkn db map _ hmem with ⟨u, t, h⟩ | ⟨u, h⟩ | ⟨e, h⟩ <;>
    exact Ev.noConfusion h

lemma check_users_no_game_progress (env : WEnv) (tkn : RegulationToken)
    (db map : UserDb) (users : List (User × Rat)) (gg : Game) :
    Ev.send (Message.NoteGameProgress gg) ∉ (check_users env tkn db users map).2.2.1 := by
  intro hmem
  rcases check_users_events users env tkn db map _ hmem with ⟨u, t, h⟩ | ⟨u, h⟩ | ⟨e, h⟩
  · exact Ev.noConfusion h
  · exact Message.noConfusion (Ev.send.inj h)
  · exact Message.noConfusion (Ev.send.inj h)

/-- Claim C6: if the page fetch fails, or trust resolution of some rater
on the page reports a transient fetch failure, then `check_game` leaves
the game completely unchanged (page, rating, votes), emits no game store
write, and the following loop iteration retries the very same game state. -/
theorem check_game_retry_frame (env : WEnv) (fuel : Nat)
    (tkn : RegulationToken) (g : Game) (db : UserDb)
    (hst : tkn.is_stopped = false)
    (hfail : (∃ e, env.fetchPage g.page = Except.error e) ∨
      (∃ us tkn2 db2 evs2, env.fetchPage g.page = Except.ok us ∧ us ≠ [] ∧
        check_users env tkn.ease db us [] = (tkn2, db2, evs2, none))) :
    ∃ tkn1 db1 evs, check_game env tkn g db = (tkn1, g, db1, evs, none) ∧
      (∀ gg s, Ev.updateGame gg s ∉ evs) ∧
      runnerLoop env true (fuel + 1) tkn g db =
        (Ev.sleep tkn.delay :: (evs ++ (runnerLoop env true fuel tkn1 g db1).1),
         (runnerLoop env true fuel tkn1 g db1).2) := by
  rcases hfail with ⟨e, he⟩ | ⟨us, tkn2, db2, evs2, hfetch, hne, hcu⟩
  · have hcge : check_game env tkn g db =
        (tkn.harden, g, db,
         [Ev.send (Message.NoteGameProgress g), Ev.send (Message.NoteErr e)], none) := by
      simp [check_game, he]
    refine ⟨tkn.harden, db, _, hcge, ?_, ?_⟩
    · intro gg s hmem
      rcases List.mem_cons.mp hmem with hh | hh
      · exact Ev.noConfusion hh
      · rcases List.mem_singleton.mp hh with hh1
        exact Ev.noConfusion hh1
    · rw [runnerLoop, hst]
      simp only [Bool.false_eq_true, if_false, Bool.not_true, if_neg]
      rw [hcge]
  · have hie : us.isEmpty = false := by
      cases us with
      | nil => exact absurd rfl hne
      | cons a l => rfl
    have hcge : check_game env tkn g db =
        (tkn2, g, db2, Ev.send (Message.NoteGameProgress g) :: evs2, none) := by
      rw [check_game, hfetch]
      simp only [hie, Bool.false_eq_true, if_false]
      rw [hcu]
      rfl
    refine ⟨tkn2, db2, _, hcge, ?_, ?_⟩
    · intro gg s hmem
      rcases List.mem_cons.mp hmem with hh | hh
      · exact Ev.noConfusion hh
      · have := check_users_no_update env tkn.ease db [] us gg s
        rw [hcu] at this
        exact this hh
    · rw [runnerLoop, hst]
      simp only [Bool.false_eq_true, if_false, Bool.not_true, if_neg]
      rw [hcge]

/-- The environment of a worker whose remote page fetches always fail. -/
def envDown : WEnv :=
  { connErr := none,
    fetchPage := fun _ => Except.error "http down",
    fetchUser := fun _ => Except.ok 5 }

/-- Witness for `check_game_retry_frame` on a concrete failing fetch. -/
theorem check_game_retry_frame_witness :
    ∃ tkn1 db1 evs, check_game envDown ⟨20, 500, 0⟩ g0 [] = (tkn1, g0, db1, evs, none) ∧
      (∀ gg s, Ev.updateGame gg s ∉ evs) ∧
      runnerLoop envDown true (0 + 1) ⟨20, 500, 0⟩ g0 [] =
        (Ev.sleep (RegulationToken.delay ⟨20, 500, 0⟩) ::
          (evs ++ (runnerLoop envDown true 0 tkn1 g0 db1).1),
         (runnerLoop envDown true 0 tkn1 g0 db1).2) :=
  check_game_retry_frame envDown 0 ⟨20, 500, 0⟩ g0 [] (by decide)
    (Or.inl ⟨"http down", rfl⟩)

/-- Claim C5 (amended): the non-terminal game-progress event is emitted at
the START of the iteration, before the page fetch and before any store
write of that iteration; for a successfully processed non-empty page the
store write of the advanced state `(page+1, rating, votes, stable=false)`
FOLLOWS the game-progress event of that iteration (which carries the
pre-advance snapshot), with no further game-progress event or game store
write in between. -/
theorem runner_progress_event_precedes_write (env : WEnv) (fuel : Nat)
    (tkn : RegulationToken) (g : Game) (db : UserDb) (us : List (User × Rat))
    (tkn2 : RegulationToken) (db2 map : UserDb) (evs2 : List Ev)
    (hst : tkn.is_stopped = false)
    (hfetch : env.fetchPage g.page = Except.ok us)
    (hne : us ≠ [])
    (hcu : check_users env tkn.ease db us [] = (tkn2, db2, evs2, some map)) :
    ∃ g1 rest out,
      runnerLoop env true (fuel + 1) tkn g db =
        (Ev.sleep tkn.delay :: Ev.send (Message.NoteGameProgress g) ::
          (evs2 ++ Ev.updateGame g1 false :: rest), out) ∧
      g1.page = g.page + 1 ∧
      (∀ gg, Ev.send (Message.NoteGameProgress gg) ∉ evs2) ∧
      (∀ gg s, Ev.updateGame gg s ∉ evs2) := by
  have hie : us.isEmpty = false := by
    cases us with
    | nil => exact absurd rfl hne
    | cons a l => rfl
  obtain ⟨g1, hcge, hg1⟩ : ∃ g1, check_game env tkn g db =
      (tkn2, g1, db2, Ev.send (Message.NoteGameProgress g) :: evs2, some false) ∧
      g1.page = g.page + 1 := by
    refine ⟨{ g with
        rating := (us.foldl
          (fun a ur => if lookupUser map ur.1 = some true then a.add ur.2 else a)
          (Avg.new g.votes g.rating)).result,
        votes := (us.foldl
          (fun a ur => if lookupUser map ur.1 = some true then a.add ur.2 else a)
          (Avg.new g.votes g.rating)).n,
        page := g.page + 1 }, ?_, rfl⟩
    rw [check_game, hfetch]
    simp only [hie, Bool.false_eq_true, if_false]
    rw [hcu]
    rfl
  refine ⟨g1, (runnerLoop env true fuel tkn2 g1 db2).1,
    (runnerLoop env true fuel tkn2 g1 db2).2, ?_, hg1, ?_, ?_⟩
  · rw [runnerLoop, hst]
    simp only [Bool.false_eq_true, if_false, Bool.not_true, if_neg]
    rw [hcge]
    rfl
  · intro gg hmem
    have := check_users_no_game_progress env tkn.ease db [] us gg
    rw [hcu] at this
    exact this hmem
  · intro gg s hmem
    have := check_users_no_update env tkn.ease db [] us gg s
    rw [hcu] at this
    exact this hmem

/-- A worker environment with exactly one non-empty rater page: page 1
holds one rater (alice, rating 6) and page 2 is empty; alice's fetched
average is 6, hence trusted. -/
def envOnePage : WEnv :=
  { connErr := none,
    fetchPage := fun p => Except.ok (if p = 1 then [("alice", 6)] else []),
    fetchUser := fun _ => Except.ok 6 }

/-- Witness for `runner_progress_event_precedes_write` on `envOnePage`. -/
theorem runner_progress_event_precedes_write_witness :
    ∃ g1 rest out,
      runnerLoop envOnePage true (1 + 1) ⟨20, 7, 0⟩ g0 [] =
        (Ev.sleep (RegulationToken.delay ⟨20, 7, 0⟩) ::
          Ev.send (Message.NoteGameProgress g0) ::
          ([Ev.addUser "alice" true, Ev.send (Message.NoteUserProgress "alice")] ++
            Ev.updateGame g1 false :: rest), out) ∧
      g1.page = g0.page + 1 ∧
      (∀ gg, Ev.send (Message.NoteGameProgress gg) ∉
        [Ev.addUser "alice" true, Ev.send (Message.NoteUserProgress "alice")]) ∧
      (∀ gg s, Ev.updateGame gg s ∉
        [Ev.addUser "alice" true, Ev.send (Message.NoteUserProgress "alice")]) :=
  runner_progress_event_precedes_write envOnePage 1 ⟨20, 7, 0⟩ g0 []
    [("alice", 6)] ⟨20, 7, 0⟩ [("alice", true)] [("alice", true)]
    [Ev.addUser "alice" true, Ev.send (Message.NoteUserProgress "alice")]
    (by decide) rfl (by decide) rfl

/-- A worker environment with one non-empty rater page: page 1 holds one
rater (bob, observed rating 9) and page 2 is empty; bob's fetched average
is 9, hence untrusted and his rating is not folded. -/
def envOnePageU : WEnv :=
  { connErr := none,
    fetchPage := fun p => Except.ok (if p = 1 then [("bob", 9)] else []),
    fetchUser := fun _ => Except.ok 9 }

/-- Mirror of `g0` after successfully processing page 1 of `envOnePageU` (no rating
folded, advanced to page 2). -/
def g1ex : Game := { g0 with rating := 0, votes := 0, page := 2 }

/-- The final snapshot after observing the empty page 2 (advanced to 3). -/
def g2ex : Game := { g1ex with page := 3 }

/-- Claim C5 counterexample: in the full concrete trace of a worker on
`envOnePageU`, page 1 is processed successfully, yet the game-progress
event of that iteration (trace position 1) precedes the store write of
the advanced page state (trace position 4) and carries the pre-advance
snapshot `g0`; no game-progress event in the trace follows its
corresponding store write, so the claim is false on this input. -/
theorem progress_event_not_after_write :
    runnerLoop envOnePageU true 2 ⟨20, 7, 0⟩ g0 [] =
      ([Ev.sleep 0, Ev.send (Message.NoteGameProgress g0),
        Ev.addUser "bob" false, Ev.send (Message.NoteUserProgress "bob"),
        Ev.updateGame g1ex false, Ev.sleep 0, Ev.send (Message.NoteGameProgress g1ex),
        Ev.updateGame g2ex true, Ev.send (Message.DieResult g2ex)],
       ROut.stable g2ex) ∧
    (runnerLoop envOnePageU true 2 ⟨20, 7, 0⟩ g0 []).1.take 2 =
      [Ev.sleep 0, Ev.send (Message.NoteGameProgress g0)] := by
  exact ⟨by decide, by decide⟩

lemma lookupUser_append (a b : UserDb) (u : User) :
    lookupUser (a ++ b) u =
      match lookupUser a u with
      | some v => some v
      | none => lookupUser b u := by
  induction a with
  | nil => rfl
  | cons p rest ih =>
    obtain ⟨w, t⟩ := p
    by_cases h : w = u
    · simp [lookupUser, h]
    · simp [lookupUser, h, ih]

lemma dbInv_refl (db0 : UserDb) (ur : User → Rat) : DbInv db0 ur db0 := by
  constructor
  · intro u v h
    exact h
  · intro u v h
    simp [resolved, h]

lemma addUser_inv (db0 db : UserDb) (ur : User → Rat) (u : User)
    (hInv : DbInv db0 ur db) (hnone : lookupUser db u = none) :
    DbInv db0 ur (addUserDb db u (trust (ur u))) := by
  unfold addUserDb
  rw [hnone]
  constructor
  · intro w v hw
    rw [lookupUser_append, hInv.1 w v hw]
  · intro w v hw
    rw [lookupUser_append] at hw
    cases hdb : lookupUser db w with
    | some v1 =>
      rw [hdb] at hw
      rw [← Option.some.inj hw]
      exact hInv.2 w v1 hdb
    | none =>
      rw [hdb] at hw
      by_cases hu : u = w
      · subst hu
        rw [lookupUser, if_pos rfl] at hw
        have h0 : lookupUser db0 u = none := by
          cases h00 : lookupUser db0 u with
          | none => rfl
          | some v2 =>
            have := hInv.1 u v2 h00
            rw [hdb] at this
            exact Option.noConfusion this
        simp [resolved, h0, ← Option.some.inj hw]
      · rw [lookupUser, if_neg hu] at hw
        exact absurd hw (by simp [lookupUser])

lemma check_users_ok (env : WEnv) (db0 : UserDb) (ur : User → Rat)
    (huser : ∀ u, env.fetchUser u = Except.ok (ur u)) :
    ∀ (users : List (User × Rat)) (tkn : RegulationToken) (db map : UserDb),
    tkn.i = 0 →
    DbInv db0 ur db →
    (∀ u v, lookupUser map u = some v → v = resolved db0 ur u) →
    ∃ db1 evs map1,
      check_users env tkn db users map = (tkn, db1, evs, some map1) ∧
      DbInv db0 ur db1 ∧
      (∀ u v, lookupUser map1 u = some v → v = resolved db0 ur u) ∧
      (∀ u, (lookupUser map u).isSome = true → (lookupUser map1 u).isSome = true) ∧
      (∀ p ∈ users, (lookupUser map1 p.1).isSome = true) := by
  intro users
  induction users with
  | nil =>
    intro tkn db map hi hInv hMap
    exact ⟨db, [], map, rfl, hInv, hMap, fun u h => h, by simp⟩
  | cons p rest ih =>
    intro tkn db map hi hInv hMap
    obtain ⟨u, r⟩ := p
    rw [check_users]
    cases hlu : lookupUser db u with
    | some v =>
      have hv : v = resolved db0 ur u := hInv.2 u v hlu
      have hMap1 : ∀ w vv, lookupUser ((u, v) :: map) w = some vv →
          vv = resolved db0 ur w := by
        intro w vv hw
        rw [lookupUser] at hw
        by_cases hu : u = w
        · rw [if_pos hu] at hw
          rw [← Option.some.inj hw, ← hu]
          exact hv
        · rw [if_neg hu] at hw
          exact hMap w vv hw
      obtain ⟨db1, evs, map1, heq, h1, h2, h3, h4⟩ := ih tkn db ((u, v) :: map) hi hInv hMap1
      refine ⟨db1, evs, map1, heq, h1, h2, ?_, ?_⟩
      · intro w hw
        apply h3
        rw [lookupUser]
        by_cases hu : u = w
        · rw [if_pos hu]
          rfl
        · rw [if_neg hu]
          exact hw
      · intro q hq
        rcases List.mem_cons.mp hq with hq | hq
        · subst hq
          apply h3
          simp [lookupUser]
        · exact h4 q hq
    | none =>
      rw [huser u]
      have h0 : lookupUser db0 u = none := by
        cases h00 : lookupUser db0 u with
        | none => rfl
        | some v2 =>
          have := hInv.1 u v2 h00
          rw [hlu] at this
          exact Option.noConfusion this
      have hres : resolved db0 ur u = trust (ur u) := by
        simp [resolved, h0]
      have hInv1 : DbInv db0 ur (addUserDb db u (trust (ur u))) :=
        addUser_inv db0 db ur u hInv hlu
      have hMap1 : ∀ w vv, lookupUser ((u, trust (ur u)) :: map) w = some vv →
          vv = resolved db0 ur w := by
        intro w vv hw
        rw [lookupUser] at hw
        by_cases hu : u = w
        · rw [if_pos hu] at hw
          rw [← Option.some.inj hw, ← hu, hres]
        · rw [if_neg hu] at hw
          exact hMap w vv hw
      rw [ease_zero tkn hi]
      obtain ⟨db1, evs, map1, heq, h1, h2, h3, h4⟩ :=
        ih tkn (addUserDb db u (trust (ur u))) ((u, trust (ur u)) :: map) hi hInv1 hMap1
      refine ⟨db1,
        Ev.addUser u (trust (ur u)) :: Ev.send (Message.NoteUserProgress u) :: evs,
        map1, by simp only [heq], h1, h2, ?_, ?_⟩
      · intro w hw
        apply h3
        rw [lookupUser]
        by_cases hu : u = w
        · rw [if_pos hu]
          rfl
        · rw [if_neg hu]
          exact hw
      · intro q hq
        rcases List.mem_cons.mp hq with hq | hq
        · subst hq
          apply h3
          simp [lookupUser]
        · exact h4 q hq

lemma fold_trusted_n (map : UserDb) (tr : User → Bool) :
    ∀ (users : List (User × Rat)) (avg : Avg),
    (∀ p ∈ users, lookupUser map p.1 = some (tr p.1)) →
    (users.foldl
      (fun a ur1 => if lookupUser map ur1.1 = some true then a.add ur1.2 else a) avg).n =
      avg.n + users.countP (fun p => tr p.1) := by
  intro users
  induction users with
  | nil =>
    intro avg hmap
    simp
  | cons p rest ih =>
    intro avg hmap
    obtain ⟨u, r⟩ := p
    have hu : lookupUser map u = some (tr u) := hmap (u, r) (List.mem_cons_self _ _)
    have hrest : ∀ q ∈ rest, lookupUser map q.1 = some (tr q.1) :=
      fun q hq => hmap q (List.mem_cons_of_mem _ hq)
    simp only [List.foldl_cons, List.countP_cons]
    cases ht : tr u with
    | true =>
      have hcond : (if lookupUser map (u, r).1 = some true
          then avg.add (u, r).2 else avg) = avg.add r := by
        simp [hu, ht]
      rw [hcond, ih (avg.add r) hrest]
      have : (avg.add r).n = avg.n + 1 := rfl
      rw [this]
      simp [ht]
      omega
    | false =>
      have hcond : (if lookupUser map (u, r).1 = some true
          then avg.add (u, r).2 else avg) = avg := by
        simp [hu, ht]
      rw [hcond, ih avg hrest]
      simp [ht]

lemma check_game_nonempty (env : WEnv) (db0 : UserDb) (ur : User → Rat)
    (huser : ∀ u, env.fetchUser u = Except.ok (ur u))
    (tkn : RegulationToken) (g : Game) (db : UserDb) (us : List (User × Rat))
    (hi : tkn.i = 0) (hInv : DbInv db0 ur db)
    (hfetch : env.fetchPage g.page = Except.ok us) (hne : us ≠ []) :
    ∃ g1 db1 evs,
      check_game env tkn g db = (tkn, g1, db1, evs, some false) ∧
      DbInv db0 ur db1 ∧
      g1.page = g.page + 1 ∧
      g1.votes = g.votes + us.countP (fun p => resolved db0 ur p.1) := by
  have hie : us.isEmpty = false := by
    cases us with
    | nil => exact absurd rfl hne
    | cons a l => rfl
  obtain ⟨db1, evs, map1, heq, h1, h2, h3, h4⟩ :=
    check_users_ok env db0 ur huser us tkn db [] hi hInv
      (fun u v h => Option.noConfusion h)
  have hmap : ∀ p ∈ us, lookupUser map1 p.1 = some (resolved db0 ur p.1) := by
    intro p hp
    have hs := h4 p hp
    cases hv : lookupUser map1 p.1 with
    | none =>
      rw [hv] at hs
      exact Bool.noConfusion hs
    | some v =>
      rw [h2 p.1 v hv]
  have hn := fold_trusted_n map1 (resolved db0 ur) us (Avg.new g.votes g.rating) hmap
  refine ⟨{ g with
      rating := (us.foldl
        (fun a ur1 => if lookupUser map1 ur1.1 = some true then a.add ur1.2 else a)
        (Avg.new g.votes g.rating)).result,
      votes := (us.foldl
        (fun a ur1 => if lookupUser map1 ur1.1 = some true then a.add ur1.2 else a)
        (Avg.new g.votes g.rating)).n,
      page := g.page + 1 }, db1,
    Ev.send (Message.NoteGameProgress g) :: evs, ?_, h1, rfl, ?_⟩
  · rw [check_game, hfetch]
    simp only [hie, Bool.false_eq_true, if_false]
    rw [ease_zero tkn hi, heq]
    rfl
  · rw [hn]
    rfl

lemma check_game_empty (env : WEnv) (tkn : RegulationToken) (g : Game)
    (db : UserDb) (hi : tkn.i = 0)
    (hfetch : env.fetchPage g.page = Except.ok []) :
    check_game env tkn g db =
      (tkn, { g with page := g.page + 1 }, db,
       [Ev.send (Message.NoteGameProgress g)], some true) := by
  have h1 : check_game env tkn g db =
      (tkn.ease, { g with page := g.page + 1 }, db,
       [Ev.send (Message.NoteGameProgress g)], some true) := by
    rw [check_game, hfetch]
    rfl
  rw [h1, ease_zero tkn hi]

lemma runnerLoop_conv (env : WEnv) (db0 : UserDb) (ur : User → Rat)
    (pages : Nat → List (User × Rat)) (N : Nat)
    (huser : ∀ u, env.fetchUser u = Except.ok (ur u))
    (hpage : ∀ p, env.fetchPage p = Except.ok (pages p))
    (hne : ∀ p, 1 ≤ p → p < N → pages p ≠ [])
    (hN : pages N = []) :
    ∀ (k fuel : Nat) (g : Game) (tkn : RegulationToken) (db : UserDb),
    g.page + k = N → 1 ≤ g.page → tkn.i = 0 → 0 < tkn.limit →
    k + 1 ≤ fuel → DbInv db0 ur db →
    ∃ evs g1,
      runnerLoop env true fuel tkn g db =
        (evs ++ [Ev.updateGame g1 true, Ev.send (Message.DieResult g1)], ROut.stable g1) ∧
      g1.page = N + 1 ∧
      g1.votes = g.votes + trustedCount db0 ur pages g.page k := by
  intro k
  induction k with
  | zero =>
    intro fuel g tkn db hkN hg1 hi hlim hfuel hInv
    obtain ⟨f, rfl⟩ : ∃ f, fuel = f + 1 := ⟨fuel - 1, by omega⟩
    have hstf : tkn.is_stopped = false := by
      simp only [RegulationToken.is_stopped, decide_eq_false_iff_not]
      omega
    have hNpage : g.page = N := by omega
    have hcge := check_game_empty env tkn g db hi (by rw [hNpage, hpage N, hN])
    refine ⟨[Ev.sleep tkn.delay, Ev.send (Message.NoteGameProgress g)],
      { g with page := g.page + 1 }, ?_, by simp; omega, by simp [trustedCount]⟩
    rw [runnerLoop, hstf]
    simp only [Bool.false_eq_true, if_false, Bool.not_true, if_neg]
    rw [hcge]
    rfl
  | succ k ih =>
    intro fuel g tkn db hkN hg1 hi hlim hfuel hInv
    obtain ⟨f, rfl⟩ : ∃ f, fuel = f + 1 := ⟨fuel - 1, by omega⟩
    have hstf : tkn.is_stopped = false := by
      simp only [RegulationToken.is_stopped, decide_eq_false_iff_not]
      omega
    obtain ⟨g1, db1, evs, hcge, hInv1, hpage1, hvotes1⟩ :=
      check_game_nonempty env db0 ur huser tkn g db (pages g.page) hi hInv
        (hpage g.page) (hne g.page hg1 (by omega))
    obtain ⟨evs2, g2, hrec, hp2, hv2⟩ :=
      ih f g1 tkn db1 (by omega) (by omega) hi hlim (by omega) hInv1
    refine ⟨Ev.sleep tkn.delay :: (evs ++ Ev.updateGame g1 false :: evs2), g2, ?_, hp2, ?_⟩
    · rw [runnerLoop, hstf]
      simp only [Bool.false_eq_true, if_false, Bool.not_true, if_neg]
      rw [hcge]
      simp only [hrec, List.append_assoc, List.cons_append]
    · rw [hv2, hvotes1, hpage1]
      rw [trustedCount]
      omega

/-- Claim C3: for a game whose remote source returns non-empty rater
pages 1..N-1 and an empty page N, a worker run with no injected fetch or
store failures terminates with the terminal stable event carrying a final
snapshot whose `page` is `N + 1` and whose `votes` equals the number of
rater occurrences on pages 1..N-1 that resolve to trusted, and whose last
store write persists that snapshot with `stable = true`. -/
theorem runner_convergence (env : WEnv) (db0 : UserDb) (ur : User → Rat)
    (pages : Nat → List (User × Rat)) (N fuel : Nat) (cfg : Config) (g : Game)
    (hconn : env.connErr = none)
    (huser : ∀ u, env.fetchUser u = Except.ok (ur u))
    (hpage : ∀ p, env.fetchPage p = Except.ok (pages p))
    (hne : ∀ p, 1 ≤ p → p < N → pages p ≠ [])
    (hN : pages N = [])
    (h1N : 1 ≤ N) (hgp : g.page = 1) (hgv : g.votes = 0)
    (hatt : 0 < cfg.attempts) (hfuel : N ≤ fuel) :
    ∃ evs g1,
      runner env true fuel cfg g db0 =
        (evs ++ [Ev.updateGame g1 true, Ev.send (Message.DieResult g1)], ROut.stable g1) ∧
      g1.page = N + 1 ∧
      g1.votes = trustedCount db0 ur pages 1 (N - 1) := by
  obtain ⟨evs, g1, hrun, hp, hv⟩ :=
    runnerLoop_conv env db0 ur pages N huser hpage hne hN (N - 1) fuel g
      (RegulationToken.new cfg.attempts cfg.delay) db0 (by omega) (by omega)
      rfl hatt (by omega) (dbInv_refl db0 ur)
  refine ⟨evs, g1, ?_, hp, ?_⟩
  · rw [runner, hconn]
    exact hrun
  · rw [hv, hgv, hgp]
    omega

/-- Remote pages for the convergence witness: page 1 holds alice (7) and
bob (9), page 2 is empty. -/
def pagesW : Nat → List (User × Rat) :=
  fun p => if p = 1 then [("alice", 7), ("bob", 9)] else []

/-- Rater averages for the convergence witness: alice averages 6
(trusted), everyone else 9 (untrusted). -/
def urW : User → Rat :=
  fun u => if u = "alice" then 6 else 9

/-- The environment realizing `pagesW` and `urW` with no failures. -/
def envW : WEnv :=
  { connErr := none,
    fetchPage := fun p => Except.ok (pagesW p),
    fetchUser := fun u => Except.ok (urW u) }

/-- Witness for `runner_convergence` on the two-page environment `envW`
with the default config: the run converges at page 3 with exactly one
trusted vote (alice). -/
theorem runner_convergence_witness :
    (∃ evs g1,
      runner envW true 2 ⟨1000, 20, 500, 4⟩ g0 [] =
        (evs ++ [Ev.updateGame g1 true, Ev.send (Message.DieResult g1)], ROut.stable g1) ∧
      g1.page = 2 + 1 ∧
      g1.votes = trustedCount [] urW pagesW 1 (2 - 1)) ∧
    trustedCount [] urW pagesW 1 (2 - 1) = 1 := by
  constructor
  · exact runner_convergence envW [] urW pagesW 2 2 ⟨1000, 20, 500, 4⟩ g0
      rfl (fun u => rfl) (fun p => rfl)
      (by
        intro p hp1 hp2
        have hp : p = 1 := by omega
        subst hp
        simp [pagesW])
      rfl (by omega) rfl rfl (by decide) (by omega)
  · decide

/-- Witness for `trust_open_interval` at the concrete average 6. -/
theorem trust_open_interval_witness :
    trust 6 = true ↔ ((2 : Rat) < 6 ∧ (6 : Rat) < 8) :=
  trust_open_interval.1 6
